import Mathlib

/-!
Verification of the code-review agent's core logic: the path guard
(`resolveUnderRoot` and friends from the path library module), the file
classifier, scope deriver, commit-message synthesizer and Markdown writer
from `src/tools.ts`.  JavaScript strings are modelled as Lean `String`s
(lists of characters); the handful of JS string primitives the code uses
(`split`, `startsWith`, `endsWith`, `includes`, `slice`, `trimEnd`, `trim`,
`toLowerCase`) are given explicit executable models below, and Node's
POSIX `path.resolve` / `path.basename` / `path.dirname` are modelled on
segment lists.  The filesystem is modelled as a record of directories and
files, threaded explicitly through the Markdown writer.
-/

/-! ## Character-list utilities (models of JS string primitives) -/

/-- Boolean prefix test on character lists (model of JS `String.startsWith`). -/
def isPrefixList : List Char → List Char → Bool
  | [], _ => true
  | _ :: _, [] => false
  | a :: as, b :: bs => a == b && isPrefixList as bs

/-- Boolean infix test on character lists (model of JS `String.includes`). -/
def isInfixList (needle : List Char) : List Char → Bool
  | [] => isPrefixList needle []
  | c :: t => isPrefixList needle (c :: t) || isInfixList needle t

/-- Split a character list on a separator character, JS `String.split` style:
the result always has one more piece than there are separators. -/
def splitOnChar (c : Char) : List Char → List (List Char)
  | [] => [[]]
  | x :: xs =>
    let r := splitOnChar c xs
    if x = c then [] :: r
    else
      match r with
      | [] => [[x]]
      | y :: ys => (x :: y) :: ys

/-- Model of JS `s.startsWith(pre)`. -/
def strStartsWith (s pre : String) : Bool := isPrefixList pre.data s.data

/-- Model of JS `s.endsWith(suf)`. -/
def strEndsWith (s suf : String) : Bool := isPrefixList suf.data.reverse s.data.reverse

/-- Model of JS `s.includes(sub)`. -/
def strContains (s sub : String) : Bool := isInfixList sub.data s.data

/-- Model of JS `s.slice(0, n)` for a nonnegative `n`. -/
def strTake (s : String) (n : Nat) : String := String.mk (s.data.take n)

/-- Model of JS `s.trimEnd()` (trailing whitespace removed). -/
def trimEnd (s : String) : String :=
  String.mk ((s.data.reverse.dropWhile (fun c => c.isWhitespace)).reverse)

/-- Model of JS `s.trim()` (leading and trailing whitespace removed). -/
def trimStr (s : String) : String :=
  String.mk
    (((s.data.dropWhile (fun c => c.isWhitespace)).reverse.dropWhile
        (fun c => c.isWhitespace)).reverse)

/-- Model of JS `s.toLowerCase()` (ASCII case folding). -/
def toLowerStr (s : String) : String := String.mk (s.data.map Char.toLower)

/-- Model of JS `Array.join(sep)` on a list of strings. -/
def joinWith (sep : String) : List String → String
  | [] => ""
  | [s] => s
  | s :: rest => s ++ sep ++ joinWith sep rest

/-- UTF-8 byte length of a string (model of `Buffer.byteLength(s, "utf8")`). -/
def utf8Len (s : String) : Nat := s.data.foldl (fun n c => n + c.utf8Size) 0

/-! ## POSIX path model (Node `path.resolve` / `basename` / `dirname`) -/

/-- The non-empty segments of a POSIX path (model of splitting on `/` and
dropping empty pieces, as Node's normalization does). -/
def segsOf (s : List Char) : List (List Char) :=
  (splitOnChar '/' s).filter (fun seg => !seg.isEmpty)

/-- One step of Node's path normalization: `.` is dropped, `..` pops the last
segment (a no-op at the root), and every other segment is appended. -/
def resolveStep (acc : List (List Char)) (seg : List Char) : List (List Char) :=
  if seg = ['.'] then acc
  else if seg = ['.', '.'] then acc.dropLast
  else acc ++ [seg]

/-- Normalize a segment list from the root (model of Node's handling of an
absolute path's segments). -/
def resolveSegs (segs : List (List Char)) : List (List Char) :=
  segs.foldl resolveStep []

/-- Join segments with `/` separators. -/
def interJoin : List (List Char) → List Char
  | [] => []
  | [s] => s
  | s :: rest => s ++ '/' :: interJoin rest

/-- Render an absolute path from its segments (leading `/`, no trailing `/`),
as Node's `path.resolve` does. -/
def joinAbs (segs : List (List Char)) : List Char := '/' :: interJoin segs

/-- Whether a path string is absolute (starts with `/`). -/
def startsWithSlash (s : String) : Bool := s.data.head? == some '/'

/-- Segments of `path.resolve(rootDir)` evaluated with current working
directory `cwd` (assumed absolute), per Node's POSIX resolution. -/
def rootSegsOf (cwd rootDir : String) : List (List Char) :=
  if startsWithSlash rootDir then resolveSegs (segsOf rootDir.data)
  else resolveSegs (segsOf cwd.data ++ segsOf rootDir.data)

/-- The resolved root directory as a string: `path.resolve(rootDir)`. -/
def resolvedRoot (cwd rootDir : String) : String :=
  String.mk (joinAbs (rootSegsOf cwd rootDir))

/-- Segments of `path.resolve(root, targetPath)` where `root` is the resolved
root directory:  an absolute target replaces the root, a relative one is
normalized on top of the root's segments. -/
def targetSegsUnder (cwd rootDir targetPath : String) : List (List Char) :=
  if startsWithSlash targetPath then resolveSegs (segsOf targetPath.data)
  else (segsOf targetPath.data).foldl resolveStep (rootSegsOf cwd rootDir)

/-- Errors raised by the tool layer. -/
inductive ToolError where
  | pathTraversal (resolvedPath : String)
  | fileExists (relativePath : String)
deriving DecidableEq, Repr

/-- Model of `resolveUnderRoot(rootDir, targetPath)` from the path library
module: resolve both, then accept only when the resolved path equals the
resolved root or extends it past a separator; otherwise throw. -/
def resolveUnderRoot (cwd rootDir targetPath : String) : Except ToolError String :=
  let root := joinAbs (rootSegsOf cwd rootDir)
  let resolved := joinAbs (targetSegsUnder cwd rootDir targetPath)
  if resolved == root || isPrefixList (root ++ ['/']) resolved then
    Except.ok (String.mk resolved)
  else
    Except.error (ToolError.pathTraversal (String.mk resolved))

deriving instance DecidableEq for Except

/-- Model of Node `path.basename` on a (possibly relative) POSIX path. -/
def basename (p : String) : String :=
  String.mk ((segsOf p.data).getLastD [])

/-- Model of Node `path.dirname` as used on resolved absolute paths. -/
def dirname (p : String) : String :=
  let parts := segsOf p.data
  if parts.length ≤ 1 then (if startsWithSlash p then "/" else ".")
  else
    (if startsWithSlash p then "/" else "") ++ String.mk (interJoin parts.dropLast)

/-! ## File classifier (src/tools.ts) -/

/-- The fixed exclusion set from `src/tools.ts`. -/
def excludeFiles : List String :=
  ["dist", "bun.lock", ".git", "node_modules", "build", "coverage", ".next", ".turbo", "out"]

/-- Unify path separators to forward slashes (the `replace(/\\/g, "/")` in
`shouldExclude`). -/
def normSlashes (s : String) : String :=
  String.mk (s.data.map (fun c => if c = '\\' then '/' else c))

/-- Model of `shouldExclude` from `src/tools.ts`. -/
def shouldExclude (filePath : String) : Bool :=
  let p := normSlashes filePath
  excludeFiles.contains p ||
  strStartsWith p "dist/" ||
  strStartsWith p "node_modules/" ||
  strStartsWith p ".git/" ||
  strStartsWith p "build/" ||
  strStartsWith p "coverage/" ||
  strStartsWith p ".next/" ||
  strStartsWith p ".turbo/" ||
  strStartsWith p "out/" ||
  p == "dist" ||
  p == "node_modules" ||
  p == ".git" ||
  p == "build" ||
  p == "coverage" ||
  p == ".next" ||
  p == ".turbo" ||
  p == "out"

/-- Model of `isDocFile` from `src/tools.ts`. -/
def isDocFile (filePath : String) : Bool :=
  let p := toLowerStr filePath
  strEndsWith p ".md" ||
  strEndsWith p ".mdx" ||
  strContains p "docs/" ||
  basename p == "readme.md"

/-- Model of `isTestFile` from `src/tools.ts`. -/
def isTestFile (filePath : String) : Bool :=
  let p := toLowerStr filePath
  strContains p "/__tests__/" ||
  strEndsWith p ".test.ts" ||
  strEndsWith p ".test.tsx" ||
  strEndsWith p ".spec.ts" ||
  strEndsWith p ".spec.tsx" ||
  strEndsWith p ".test.js" ||
  strEndsWith p ".spec.js"

/-- The fixed configuration file-name set from `isConfigFile`. -/
def configNames : List String :=
  ["package.json", "tsconfig.json", "bun.lock", "pnpm-lock.yaml", "yarn.lock",
   ".eslintrc.json", ".eslintrc.js", ".prettierrc", ".prettierrc.json",
   ".npmrc", ".nvmrc", ".editorconfig", "dockerfile"]

/-- Model of `isConfigFile` from `src/tools.ts`. -/
def isConfigFile (filePath : String) : Bool :=
  let base := toLowerStr (basename filePath)
  configNames.contains base ||
  strContains filePath ".github/workflows/" ||
  strEndsWith base ".config.js" ||
  strEndsWith base ".config.ts" ||
  strEndsWith base "rc"

/-! ## Scope deriver (`topLevelScope` in src/tools.ts) -/

/-- JS `f.split("/").filter(Boolean)`: the non-empty slash-separated pieces
of a path, as strings. -/
def splitSegs (f : String) : List String :=
  ((splitOnChar '/' f.data).map String.mk).filter (fun s => s != "")

/-- The initial scan loop of `topLevelScope`: return the first segment of the
first path that has more than one segment. -/
def topLevelScopeLoop : List String → Option String
  | [] => none
  | f :: rest =>
    let parts := splitSegs f
    if parts.length > 1 then some (parts.headD "") else topLevelScopeLoop rest

/-- Model of `topLevelScope` from `src/tools.ts`, including the singleton
fallback branch after the scan loop. -/
def topLevelScope (files : List String) : Option String :=
  match topLevelScopeLoop files with
  | some s => some s
  | none =>
    if files.length = 1 then
      match files with
      | [f] =>
        if f = "" then none
        else
          let parts := splitSegs f
          if parts.length > 1 then some (parts.headD "") else none
      | _ => none
    else none

/-- The scope deriver as the spec describes it: the first segment of the
first path, in order, that has more than one segment; absent otherwise. -/
def firstScopeSpec (files : List String) : Option String :=
  (files.find? (fun f => decide (1 < (splitSegs f).length))).map
    (fun f => (splitSegs f).headD "")

/-- The simplified scope deriver: the scan loop alone, with the singleton
fallback branch removed (absent after the loop). -/
def topLevelScopeSimplified : List String → Option String
  | [] => none
  | f :: rest =>
    let parts := splitSegs f
    if parts.length > 1 then some (parts.headD "") else topLevelScopeSimplified rest

/-! ## Subject truncation (`truncate` in src/tools.ts) -/

/-- Model of `truncate` from `src/tools.ts`:
`str.length > max ? str.slice(0, max - 1).trimEnd() + ellipsis : str`. -/
def truncate (str : String) (max : Nat) : String :=
  if str.length > max then trimEnd (strTake str (max - 1)) ++ "…" else str

/-! ## Commit message synthesizer (`generateCommitMessage` in src/tools.ts) -/

/-- Conventional Commit types accepted by the tool's input schema. -/
inductive CommitType where
  | feat | fix | docs | style | refactor | perf | test | build | ci | chore | revert
deriving DecidableEq, Repr

/-- Render a commit type the way the enum string appears in the header. -/
def commitTypeStr : CommitType → String
  | .feat => "feat"
  | .fix => "fix"
  | .docs => "docs"
  | .style => "style"
  | .refactor => "refactor"
  | .perf => "perf"
  | .test => "test"
  | .build => "build"
  | .ci => "ci"
  | .chore => "chore"
  | .revert => "revert"

/-- The status lists reported by the version-control collaborator.  Renamed
entries are represented by their destination paths (the code maps a renamed
record to its `to` field before use). -/
structure GitStatus where
  created : List String
  modified : List String
  deleted : List String
  renamed : List String
deriving DecidableEq, Repr

/-- The type-inference cascade of `generateCommitMessage` (no explicit
override: only-docs, only-tests, only-config over the non-excluded diff
summary files, then any created, any deleted, else refactor). -/
def inferCommitType (typ : Option CommitType) (created deleted summaryFiles : List String) :
    CommitType :=
  let nonExcludedSummaryFiles := summaryFiles.filter (fun f => !shouldExclude f)
  let onlyDocs := decide (0 < nonExcludedSummaryFiles.length) &&
    nonExcludedSummaryFiles.all isDocFile
  let onlyTests := decide (0 < nonExcludedSummaryFiles.length) &&
    nonExcludedSummaryFiles.all isTestFile
  let onlyConfig := decide (0 < nonExcludedSummaryFiles.length) &&
    nonExcludedSummaryFiles.all isConfigFile
  let anyAdded := created.any (fun f => !shouldExclude f)
  let anyDeleted := deleted.any (fun f => !shouldExclude f)
  match typ with
  | some t => t
  | none =>
    if onlyDocs then .docs
    else if onlyTests then .test
    else if onlyConfig then .chore
    else if anyAdded then .feat
    else if anyDeleted then .chore
    else .refactor

/-- The type-inference rule as the spec states it: an explicit override wins;
otherwise (a) all non-excluded changed files documentation, (b) all test,
(c) all configuration, (d) any non-excluded created file, (e) any
non-excluded deleted file, (f) default, in strict priority order. -/
def specInferCommitType (typ : Option CommitType) (created deleted summaryFiles : List String) :
    CommitType :=
  match typ with
  | some t => t
  | none =>
    let files := summaryFiles.filter (fun f => !shouldExclude f)
    if files ≠ [] ∧ ∀ f ∈ files, isDocFile f = true then .docs
    else if files ≠ [] ∧ ∀ f ∈ files, isTestFile f = true then .test
    else if files ≠ [] ∧ ∀ f ∈ files, isConfigFile f = true then .chore
    else if ∃ f ∈ created, shouldExclude f = false then .feat
    else if ∃ f ∈ deleted, shouldExclude f = false then .chore
    else .refactor

/-- The non-excluded changed-file list built from the status lists (created,
modified, deleted, then renamed destinations, dropping empty entries and
excluded paths). -/
def changedFilesOf (status : GitStatus) : List String :=
  let renamed := status.renamed.filter (fun r => r != "")
  (status.created ++ status.modified ++ status.deleted ++ renamed).filter
    (fun f => f != "" && !shouldExclude f)

/-- The derived subject when no usable override is given: single-file
`add`/`remove`/`update basename`, multi-file `update scope files` or
`update N files`, and `update project files` when nothing changed. -/
def defaultSubject (changedFiles : List String) (status : GitStatus)
    (nonExcludedSummaryFiles : List String) : String :=
  if changedFiles.length = 1 then
    let file := changedFiles.headD ""
    let base := basename file
    if status.created.contains file then "add " ++ base
    else if status.deleted.contains file then "remove " ++ base
    else if status.modified.contains file then "update " ++ base
    else "update " ++ base
  else if changedFiles.length > 1 then
    match topLevelScope nonExcludedSummaryFiles with
    | some s => "update " ++ s ++ " files"
    | none => "update " ++ toString changedFiles.length ++ " files"
  else "update project files"

/-- The subject line: a non-empty explicit override wins, otherwise derive. -/
def buildSubject (summary : Option String) (changedFiles : List String) (status : GitStatus)
    (nonExcludedSummaryFiles : List String) : String :=
  match summary with
  | some s =>
    if s = "" then defaultSubject changedFiles status nonExcludedSummaryFiles else s
  | none => defaultSubject changedFiles status nonExcludedSummaryFiles

/-- The commit-message header `type(scope): subject` with the scope segment
omitted when absent and the subject truncated to the configured maximum. -/
def commitHeader (status : GitStatus) (summaryFiles : List String) (typ : Option CommitType)
    (scope summary : Option String) (maxSubjectLength : Nat) : String :=
  let nonExcludedSummaryFiles := summaryFiles.filter (fun f => !shouldExclude f)
  let changedFiles := changedFilesOf status
  let inferredType := inferCommitType typ status.created status.deleted summaryFiles
  let derivedScope :=
    match scope with
    | some s => if s = "" then topLevelScope nonExcludedSummaryFiles else some s
    | none => topLevelScope nonExcludedSummaryFiles
  let subject := buildSubject summary changedFiles status nonExcludedSummaryFiles
  commitTypeStr inferredType ++
    (match derivedScope with
     | some s => "(" ++ s ++ ")"
     | none => "") ++
    ": " ++ truncate subject maxSubjectLength

/-- The display kind of a changed file in the body, by the code's precedence
documentation, then test, then configuration, then plain code. -/
def fileKind (f : String) : String :=
  if isDocFile f then "docs"
  else if isTestFile f then "test"
  else if isConfigFile f then "config"
  else "code"

/-- The body bullet list of `generateCommitMessage`: one line per shown file
(the first 20), plus a summary line when files were cut off. -/
def commitBodyLines (nonExcludedSummaryFiles : List String) : List String :=
  let showFiles := nonExcludedSummaryFiles.take 20
  let lines := showFiles.map (fun f => "- " ++ fileKind f ++ ": " ++ f)
  if nonExcludedSummaryFiles.length > showFiles.length then
    lines ++
      ["- …and " ++ toString (nonExcludedSummaryFiles.length - showFiles.length) ++
        " more file(s)"]
  else lines

/-- The body bullet list as the spec states it: the first 20 files in order,
each `- kind: path`, and when more than 20 files exist a final
`- …and (count - 20) more file(s)` bullet. -/
def commitBodyLinesSpec (files : List String) : List String :=
  (files.take 20).map (fun f => "- " ++ fileKind f ++ ": " ++ f) ++
    (if files.length > 20 then
      ["- …and " ++ toString (files.length - 20) ++ " more file(s)"]
    else [])

/-- Model of the pure core of `generateCommitMessage` from `src/tools.ts`,
given the collaborator's status lists and diff summary file list: build the
header, and unless body inclusion is disabled append the blank line and the
bullet list, joined with newlines. -/
def generateCommitMessage (status : GitStatus) (summaryFiles : List String)
    (typ : Option CommitType) (scope summary : Option String) (includeBody : Bool)
    (maxSubjectLength : Nat) : String :=
  let header := commitHeader status summaryFiles typ scope summary maxSubjectLength
  if !includeBody then header
  else
    joinWith "\n"
      (header :: "" :: commitBodyLines (summaryFiles.filter (fun f => !shouldExclude f)))

/-! ## Markdown writer (`generateMarkdownFile` in src/tools.ts) -/

/-- Front-matter values (the writer's `Record<string, any>` restricted to the
shapes `toSimpleYaml` distinguishes: arrays, nested objects, and scalars). -/
inductive Yaml where
  | str (v : String)
  | num (v : Int)
  | bool (v : Bool)
  | null
  | arr (vs : List Yaml)
  | obj (kvs : List (String × Yaml))

/-- Escape a string for JSON encoding (backslashes and double quotes). -/
def escapeJson (s : String) : String :=
  String.mk (s.data.foldr
    (fun c acc => if c = '"' ∨ c = '\\' then '\\' :: c :: acc else c :: acc) [])

mutual

/-- Model of `JSON.stringify` on front-matter values. -/
def jsonStringify : Yaml → String
  | .str s => "\"" ++ escapeJson s ++ "\""
  | .num n => toString n
  | .bool b => if b then "true" else "false"
  | .null => "null"
  | .arr vs => "[" ++ jsonStringifyList vs ++ "]"
  | .obj kvs => "\x7b" ++ jsonStringifyObj kvs ++ "\x7d"

def jsonStringifyList : List Yaml → String
  | [] => ""
  | [v] => jsonStringify v
  | v :: rest => jsonStringify v ++ "," ++ jsonStringifyList rest

def jsonStringifyObj : List (String × Yaml) → String
  | [] => ""
  | [kv] => "\"" ++ escapeJson kv.1 ++ "\":" ++ jsonStringify kv.2
  | kv :: rest =>
    "\"" ++ escapeJson kv.1 ++ "\":" ++ jsonStringify kv.2 ++ "," ++ jsonStringifyObj rest

end

mutual

/-- Model of JS `String(v)` as used for array elements in the YAML block. -/
def jsDisplay : Yaml → String
  | .str s => s
  | .num n => toString n
  | .bool b => if b then "true" else "false"
  | .null => "null"
  | .arr vs => jsDisplayList vs
  | .obj _ => "[object Object]"

def jsDisplayList : List Yaml → String
  | [] => ""
  | [v] => jsDisplay v
  | v :: rest => jsDisplay v ++ "," ++ jsDisplayList rest

end

/-- The per-entry lines of `toSimpleYaml`: arrays become a key line plus
dash-prefixed items, objects a key line plus one-level `k: json` pairs, and
everything else a single `key: json` line. -/
def yamlLines : List (String × Yaml) → List String
  | [] => []
  | (key, .arr vs) :: rest =>
    (key ++ ":") :: (vs.map (fun v => "  - " ++ jsDisplay v) ++ yamlLines rest)
  | (key, .obj kvs) :: rest =>
    (key ++ ":") ::
      (kvs.map (fun kv => "  " ++ kv.1 ++ ": " ++ jsonStringify kv.2) ++ yamlLines rest)
  | (key, v) :: rest => (key ++ ": " ++ jsonStringify v) :: yamlLines rest

/-- Model of `toSimpleYaml` from `src/tools.ts`. -/
def toSimpleYaml (data : List (String × Yaml)) : String :=
  joinWith "\n" (["---"] ++ yamlLines data ++ ["---"])

/-- A document section: H2 heading plus optional body. -/
structure MdSection where
  heading : String
  body : Option String
deriving DecidableEq, Repr

/-- The request shape of the Markdown writer (absent optional strings and an
absent/empty list or mapping coincide, as in the code's truthiness checks). -/
structure GenerateMarkdownFileInput where
  rootDir : String
  relativePath : String
  title : Option String
  content : Option String
  sections : List MdSection
  frontMatter : List (String × Yaml)
  overwrite : Bool

/-- The section parts pushed by the writer: a newline-prefixed H2 line per
section, followed by the body when present and non-empty. -/
def sectionParts : List MdSection → List String
  | [] => []
  | s :: rest =>
    ("\n## " ++ s.heading) ::
      ((match s.body with
        | some b => if b = "" then [] else [b]
        | none => []) ++ sectionParts rest)

/-- The document text composed by `generateMarkdownFile`: front matter, title,
sections and free content joined with blank lines, trimmed, one trailing
newline appended. -/
def composeMarkdown (inp : GenerateMarkdownFileInput) : String :=
  let parts : List String :=
    (if !inp.frontMatter.isEmpty then [toSimpleYaml inp.frontMatter] else []) ++
    (match inp.title with
     | some t => if t = "" then [] else ["# " ++ t]
     | none => []) ++
    sectionParts inp.sections ++
    (match inp.content with
     | some c => if c = "" then [] else [c]
     | none => [])
  trimStr (joinWith "\n\n" parts) ++ "\n"

/-- The filesystem model: a set of directories and a map of file contents. -/
structure FS where
  dirs : List String
  files : List (String × String)
deriving DecidableEq, Repr

/-- Whether a path exists (as used by the writer's `stat` existence probe). -/
def fsExistsPath (fs : FS) (p : String) : Bool :=
  fs.dirs.contains p || fs.files.any (fun e => e.1 == p)

/-- Model of `ensureDir` (recursive `mkdir`, idempotent). -/
def ensureDir (fs : FS) (d : String) : FS :=
  if fs.dirs.contains d then fs else ⟨d :: fs.dirs, fs.files⟩

/-- Write (or replace) a file's contents. -/
def fsWrite (fs : FS) (p content : String) : FS :=
  ⟨fs.dirs, (p, content) :: fs.files.filter (fun e => !(e.1 == p))⟩

/-- The result record of a successful Markdown write. -/
structure MarkdownWriteResult where
  path : String
  bytesWritten : Nat
  created : Bool
  overwritten : Bool
deriving DecidableEq, Repr

/-- Model of `generateMarkdownFile` from `src/tools.ts`: resolve the target
under the root (propagating a traversal error before any filesystem effect),
ensure the parent directory, probe existence, fail when the target exists and
overwriting was not requested, otherwise compose and write the document.  The
filesystem state at the time of return is paired with the outcome. -/
def generateMarkdownFile (cwd : String) (fs : FS) (inp : GenerateMarkdownFileInput) :
    Except ToolError MarkdownWriteResult × FS :=
  match resolveUnderRoot cwd inp.rootDir inp.relativePath with
  | Except.error e => (Except.error e, fs)
  | Except.ok fullPath =>
    let fs1 := ensureDir fs (dirname fullPath)
    let exists_ := fsExistsPath fs1 fullPath
    if exists_ && !inp.overwrite then
      (Except.error (ToolError.fileExists inp.relativePath), fs1)
    else
      let finalContent := composeMarkdown inp
      let fs2 := fsWrite fs1 fullPath finalContent
      (Except.ok ⟨fullPath, utf8Len finalContent, !exists_, exists_ && inp.overwrite⟩, fs2)

/-! ## Helper lemmas -/

theorem length_dropWhile_le_self {α : Type} (p : α → Bool) (l : List α) :
    (l.dropWhile p).length ≤ l.length := by
  induction l with
  | nil => simp
  | cons a t ih =>
    rw [List.dropWhile_cons]
    split
    · exact Nat.le_succ_of_le ih
    · simp

theorem strData_append (s t : String) : (s ++ t).data = s.data ++ t.data := rfl

theorem strLength_eq_dataLength (s : String) : s.length = s.data.length := rfl

theorem strLength_append (s t : String) : (s ++ t).length = s.length + t.length := by
  rw [strLength_eq_dataLength, strData_append, List.length_append]; rfl

theorem trimEnd_length_le (s : String) : (trimEnd s).length ≤ s.length := by
  rw [strLength_eq_dataLength, strLength_eq_dataLength]
  show ((s.data.reverse.dropWhile (fun c => c.isWhitespace)).reverse).length ≤ s.data.length
  rw [List.length_reverse]
  calc (s.data.reverse.dropWhile (fun c => c.isWhitespace)).length
      ≤ s.data.reverse.length := length_dropWhile_le_self _ _
    _ = s.data.length := List.length_reverse _

theorem strTake_length_le (s : String) (n : Nat) : (strTake s n).length ≤ n := by
  rw [strLength_eq_dataLength]
  show (s.data.take n).length ≤ n
  simp [List.length_take]

theorem strEndsWith_append_ellipsis (x : String) : strEndsWith (x ++ "…") "…" = true := by
  unfold strEndsWith
  rw [strData_append]
  have : (("…" : String)).data = ['…'] := rfl
  rw [this, List.reverse_append]
  simp [isPrefixList]

/-! ## Theorems for the claims -/

/-- C1: for every root directory and target path, when `resolveUnderRoot`
returns a path it is an absolute path that either equals the resolved root or
is a descendant of it, in the sense that the separator-terminated resolved
root is a prefix of it; it never returns a path outside the root (any other
resolution is rejected with a `pathTraversal` error). -/
theorem resolveUnderRoot_contained (cwd rootDir targetPath res : String)
    (h : resolveUnderRoot cwd rootDir targetPath = Except.ok res) :
    res.data.head? = some '/' ∧
      (res = resolvedRoot cwd rootDir ∨
        isPrefixList ((resolvedRoot cwd rootDir).data ++ ['/']) res.data = true) := by
  simp only [resolveUnderRoot] at h
  split at h
  case isTrue hg =>
    injection h with h
    subst h
    refine ⟨rfl, ?_⟩
    rcases Bool.or_eq_true _ _ |>.mp hg with h1 | h1
    · left
      exact congrArg String.mk (beq_iff_eq.mp h1)
    · right
      exact h1
  case isFalse hg =>
    exact absurd h (by simp)

/-- Witness for C1 at a concrete input: resolving `a` under root `r` from
working directory `/` yields `/r/a`, which is a descendant of the root. -/
theorem resolveUnderRoot_contained_witness :
    ("/r/a" : String).data.head? = some '/' ∧
      (("/r/a" : String) = resolvedRoot "/" "r" ∨
        isPrefixList ((resolvedRoot "/" "r").data ++ ['/']) ("/r/a" : String).data = true) :=
  resolveUnderRoot_contained "/" "r" "a" "/r/a" (by decide)

theorem topLevelScopeLoop_eq_find (files : List String) :
    topLevelScopeLoop files =
      (files.find? (fun f => decide (1 < (splitSegs f).length))).map
        (fun f => (splitSegs f).headD "") := by
  induction files with
  | nil => rfl
  | cons f rest ih =>
    by_cases h : 1 < (splitSegs f).length
    · simp [topLevelScopeLoop, h, List.find?_cons_of_pos]
    · simp [topLevelScopeLoop, h, List.find?_cons_of_neg, ih]

theorem topLevelScope_eq_loop (files : List String) :
    topLevelScope files = topLevelScopeLoop files := by
  unfold topLevelScope
  cases hl : topLevelScopeLoop files with
  | some s => rfl
  | none =>
    have hfind : (files.find? (fun f => decide (1 < (splitSegs f).length))).map
        (fun f => (splitSegs f).headD "") = none := by
      rw [← topLevelScopeLoop_eq_find]; exact hl
    have hnone : ∀ f ∈ files, ¬ (1 < (splitSegs f).length) := by
      intro f hf
      have := List.find?_eq_none.mp (Option.map_eq_none.mp hfind) f hf
      simpa using this
    rcases files with _ | ⟨f, _ | ⟨g, rest⟩⟩
    · simp
    · by_cases hfe : f = ""
      · simp [hfe]
      · have hlen := hnone f (by simp)
        simp [hfe, hlen]
    · simp

theorem topLevelScopeSimplified_eq_loop (files : List String) :
    topLevelScopeSimplified files = topLevelScopeLoop files := by
  induction files with
  | nil => rfl
  | cons f rest ih =>
    simp only [topLevelScopeSimplified, topLevelScopeLoop]
    split
    · rfl
    · exact ih

/-- C4: for every list of path strings, `topLevelScope` returns the first
path segment of the first path, in the given order, that has more than one
non-empty segment; when the list is empty or no path qualifies the result is
absent. -/
theorem topLevelScope_eq_firstScopeSpec (files : List String) :
    topLevelScope files = firstScopeSpec files := by
  rw [topLevelScope_eq_loop, topLevelScopeLoop_eq_find]; rfl

/-- C5: the single-file fallback branch of `topLevelScope` is redundant: the
function agrees everywhere with the simplified variant consisting only of the
initial scan loop, returning absent after the loop. -/
theorem topLevelScope_eq_simplified (files : List String) :
    topLevelScope files = topLevelScopeSimplified files := by
  rw [topLevelScope_eq_loop, topLevelScopeSimplified_eq_loop]

/-- C10: `truncate` never exceeds the maximum: for every string and positive
maximum, the result has length at most the maximum, and a string already
within the maximum is returned unchanged. -/
theorem truncate_length_bound (str : String) (m : Nat) (hm : 0 < m) :
    (truncate str m).length ≤ m ∧ (str.length ≤ m → truncate str m = str) := by
  constructor
  · unfold truncate
    split
    case isTrue h =>
      rw [strLength_append]
      have h1 := trimEnd_length_le (strTake str (m - 1))
      have h2 := strTake_length_le str (m - 1)
      have h3 : (("…" : String)).length = 1 := rfl
      omega
    case isFalse h =>
      omega
  · intro hle
    unfold truncate
    rw [if_neg (by omega)]

/-- Witness for C10 at a concrete input: a 20-character subject is unchanged
under the default maximum of 72. -/
theorem truncate_length_bound_witness :
    (truncate "update project files" 72).length ≤ 72 ∧
      (("update project files" : String).length ≤ 72 →
        truncate "update project files" 72 = "update project files") :=
  truncate_length_bound "update project files" 72 (by decide)

/-- C3 (amended): with maximum subject length 10, every subject longer than
10 characters is emitted as the first 9 characters with trailing whitespace
trimmed and a single appended ellipsis — hence at most 10 characters long and
ending in the ellipsis, and exactly 10 only when nothing was trimmed. -/
theorem truncate_at_ten (s : String) (h : 10 < s.length) :
    truncate s 10 = trimEnd (strTake s 9) ++ "…" ∧
      (truncate s 10).length ≤ 10 ∧
      strEndsWith (truncate s 10) "…" = true := by
  have he : truncate s 10 = trimEnd (strTake s 9) ++ "…" := by
    unfold truncate
    rw [if_pos h]
  refine ⟨he, ?_, ?_⟩
  · rw [he, strLength_append]
    have h1 := trimEnd_length_le (strTake s 9)
    have h2 := strTake_length_le s 9
    have h3 : (("…" : String)).length = 1 := rfl
    omega
  · rw [he]
    exact strEndsWith_append_ellipsis _

/-- Witness for C3 (amended) at a concrete input: an 11-character subject is
truncated to the 10-character `abcdefghi…`. -/
theorem truncate_at_ten_witness :
    truncate "abcdefghijk" 10 = trimEnd (strTake "abcdefghijk" 9) ++ "…" ∧
      (truncate "abcdefghijk" 10).length ≤ 10 ∧
      strEndsWith (truncate "abcdefghijk" 10) "…" = true :=
  truncate_at_ten "abcdefghijk" (by decide)

/-- C3 counterexample: the derived subject `update 2 files` has 14 characters,
yet with maximum subject length 10 the emitted subject is `update 2…` with 9
characters — not exactly 10 — because the trailing space of the 9-character
prefix is trimmed before the ellipsis is appended; the full header produced
for two root-level modified files is `refactor: update 2…`. -/
theorem truncate_exact_ten_cex :
    (("update 2 files" : String)).length > 10 ∧
      (truncate "update 2 files" 10).length = 9 ∧
      truncate "update 2 files" 10 = "update 2…" ∧
      generateCommitMessage ⟨[], ["a.ts", "b.ts"], [], []⟩ ["a.ts", "b.ts"]
          none none none false 10 = "refactor: update 2…" := by
  decide

/-- C2: the commit-type inference of `generateCommitMessage` agrees with the
spec's cascade: an explicit override always wins; otherwise all-documentation
gives `docs`, else all-test gives `test`, else all-configuration gives
`chore`, else any non-excluded created file gives `feat`, else any
non-excluded deleted file gives `chore`, else `refactor`, each test applying
only to a non-empty non-excluded changed-file list and evaluated in exactly
this priority order. -/
theorem inferCommitType_matches_spec (typ : Option CommitType)
    (created deleted summaryFiles : List String) :
    inferCommitType typ created deleted summaryFiles =
      specInferCommitType typ created deleted summaryFiles := by
  cases typ with
  | some t => rfl
  | none =>
    simp only [inferCommitType, specInferCommitType, Bool.and_eq_true, decide_eq_true_eq,
      List.all_eq_true, List.any_eq_true, Bool.not_eq_true', List.length_pos_iff_ne_nil]

theorem commitBodyLines_eq_spec (files : List String) :
    commitBodyLines files = commitBodyLinesSpec files := by
  simp only [commitBodyLines, commitBodyLinesSpec, List.length_take]
  by_cases h : files.length > 20
  · rw [if_pos (by omega), if_pos h]
    have hc : files.length - min 20 files.length = files.length - 20 := by omega
    rw [hc]
  · rw [if_neg (by omega), if_neg h, List.append_nil]

/-- C8: with body inclusion disabled `generateCommitMessage` returns only the
header; with it enabled the message is the header, a blank line, then one
bullet `- kind: path` per non-excluded changed file capped at the first 20 in
order — kind chosen by the precedence docs, test, config, code — plus, when
more than 20 files exist, a final `- …and N more file(s)` bullet counting the
rest. -/
theorem generateCommitMessage_body (status : GitStatus) (summaryFiles : List String)
    (typ : Option CommitType) (scope summary : Option String) (maxSubjectLength : Nat) :
    generateCommitMessage status summaryFiles typ scope summary false maxSubjectLength =
        commitHeader status summaryFiles typ scope summary maxSubjectLength ∧
      generateCommitMessage status summaryFiles typ scope summary true maxSubjectLength =
        joinWith "\n"
          (commitHeader status summaryFiles typ scope summary maxSubjectLength :: "" ::
            commitBodyLinesSpec (summaryFiles.filter (fun f => !shouldExclude f))) := by
  constructor
  · rfl
  · simp only [generateCommitMessage, commitBodyLines_eq_spec]
    rfl

/-- C9: with exactly one reported change, the created file `src/a.ts`, and no
overrides, the commit-message header is `feat(src): add a.ts` (type from the
created file, scope `src` from the multi-segment path, subject from the
single created file's basename); with the body enabled the single bullet
classifies it as plain code. -/
theorem generateCommitMessage_single_created :
    generateCommitMessage ⟨["src/a.ts"], [], [], []⟩ ["src/a.ts"] none none none false 72 =
        "feat(src): add a.ts" ∧
      generateCommitMessage ⟨["src/a.ts"], [], [], []⟩ ["src/a.ts"] none none none true 72 =
        "feat(src): add a.ts\n\n- code: src/a.ts" := by
  decide

theorem isPrefixList_iff (a b : List Char) : isPrefixList a b = true ↔ a <+: b := by
  induction a generalizing b with
  | nil => simp [isPrefixList]
  | cons c cs ih =>
    cases b with
    | nil => simp [isPrefixList]
    | cons d ds =>
      simp [isPrefixList, Bool.and_eq_true, beq_iff_eq, ih, List.cons_prefix_cons]

theorem prefix_cancel_left {α : Type} (p a b : List α) (h : p ++ a <+: p ++ b) :
    a <+: b := by
  induction p with
  | nil => simpa using h
  | cons x xs ih =>
    rw [List.cons_append, List.cons_append, List.cons_prefix_cons] at h
    exact ih h.2

theorem interJoin_concat (l : List (List Char)) (a : List Char) :
    interJoin (l ++ [a]) = if l.isEmpty then a else interJoin l ++ '/' :: a := by
  induction l with
  | nil => simp [interJoin]
  | cons s rest ih =>
    cases rest with
    | nil => rw [if_neg (by simp)]; rfl
    | cons t ts =>
      rw [if_neg (by simp)]
      calc interJoin ((s :: t :: ts) ++ [a])
          = s ++ '/' :: interJoin ((t :: ts) ++ [a]) := rfl
        _ = s ++ '/' :: (interJoin (t :: ts) ++ '/' :: a) := by
            rw [ih, if_neg (by simp)]
        _ = (s ++ '/' :: interJoin (t :: ts)) ++ '/' :: a := by
            simp [List.append_assoc]
        _ = interJoin (s :: t :: ts) ++ '/' :: a := rfl

theorem outside_guard_false (R : List (List Char))
    (h : R.getLast? ≠ some ("outside.md".data)) :
    ((joinAbs (R.dropLast ++ [("outside.md".data)]) == joinAbs R) ||
      isPrefixList (joinAbs R ++ ['/'])
        (joinAbs (R.dropLast ++ [("outside.md".data)]))) = false := by
  rcases List.eq_nil_or_concat R with hR | ⟨l, x, hR⟩
  · subst hR
    decide
  · rw [List.concat_eq_append] at hR
    subst hR
    have hx : x ≠ ("outside.md".data) := fun he => h (by rw [List.getLast?_concat, he])
    rw [List.dropLast_concat]
    have h1 : (joinAbs (l ++ [("outside.md".data)]) == joinAbs (l ++ [x])) = false := by
      apply beq_eq_false_iff_ne.mpr
      intro he
      simp only [joinAbs, List.cons.injEq, true_and] at he
      rw [interJoin_concat, interJoin_concat] at he
      by_cases hle : l.isEmpty = true
      · rw [if_pos hle, if_pos hle] at he
        exact hx he.symm
      · rw [if_neg hle, if_neg hle] at he
        have h2' := List.append_cancel_left he
        simp only [List.cons.injEq, true_and] at h2'
        exact hx h2'.symm
    have h2 : isPrefixList (joinAbs (l ++ [x]) ++ ['/'])
        (joinAbs (l ++ [("outside.md".data)])) = false := by
      have hnp : ¬ (joinAbs (l ++ [x]) ++ ['/'] <+: joinAbs (l ++ [("outside.md".data)])) := by
        intro hpre
        simp only [joinAbs] at hpre
        rw [interJoin_concat, interJoin_concat] at hpre
        by_cases hle : l.isEmpty = true
        · rw [if_pos hle, if_pos hle] at hpre
          rw [List.cons_append, List.cons_prefix_cons] at hpre
          obtain ⟨-, hpre⟩ := hpre
          obtain ⟨t, ht⟩ := hpre
          have hm : '/' ∈ x ++ ['/'] ++ t := by simp
          rw [ht] at hm
          exact absurd hm (by decide)
        · rw [if_neg hle, if_neg hle] at hpre
          rw [List.cons_append, List.cons_prefix_cons] at hpre
          obtain ⟨-, hpre⟩ := hpre
          have e1 : (interJoin l ++ '/' :: x) ++ ['/'] =
              (interJoin l ++ ['/']) ++ (x ++ ['/']) := by
            simp [List.append_assoc]
          have e2 : interJoin l ++ '/' :: ("outside.md".data) =
              (interJoin l ++ ['/']) ++ ("outside.md".data) := by
            simp [List.append_assoc]
          rw [e1, e2] at hpre
          obtain ⟨t, ht⟩ := prefix_cancel_left _ _ _ hpre
          have hm : '/' ∈ x ++ ['/'] ++ t := by simp
          rw [ht] at hm
          exact absurd hm (by decide)
      cases hbp : isPrefixList (joinAbs (l ++ [x]) ++ ['/'])
          (joinAbs (l ++ [("outside.md".data)]))
      · rfl
      · exact absurd (isPrefixList_iff _ _ |>.mp hbp) hnp
    rw [h1, h2]
    rfl

/-- C7 (amended): for every root directory whose resolved path does not end in
a segment named `outside.md`, calling `generateMarkdownFile` with relative
path `../outside.md` fails with a `pathTraversal` error naming the resolved
escape path, and performs no filesystem write: the state is returned exactly
as it was. -/
theorem generateMarkdownFile_traversal (cwd : String) (fs : FS)
    (inp : GenerateMarkdownFileInput) (hrel : inp.relativePath = "../outside.md")
    (hlast : (rootSegsOf cwd inp.rootDir).getLast? ≠ some ("outside.md".data)) :
    generateMarkdownFile cwd fs inp =
      (Except.error (ToolError.pathTraversal (String.mk
          (joinAbs ((rootSegsOf cwd inp.rootDir).dropLast ++ [("outside.md".data)])))),
        fs) := by
  have hseg : targetSegsUnder cwd inp.rootDir inp.relativePath =
      (rootSegsOf cwd inp.rootDir).dropLast ++ [("outside.md".data)] := by
    rw [hrel]
    unfold targetSegsUnder
    rw [if_neg (by decide)]
    have hs : segsOf (("../outside.md" : String).data) =
        [['.', '.'], ("outside.md".data)] := by decide
    rw [hs]
    have h1 : ∀ acc : List (List Char), resolveStep acc ['.', '.'] = acc.dropLast := by
      intro acc
      unfold resolveStep
      rw [if_neg (by decide), if_pos rfl]
    have h2 : ∀ acc : List (List Char),
        resolveStep acc ("outside.md".data) = acc ++ [("outside.md".data)] := by
      intro acc
      unfold resolveStep
      rw [if_neg (by decide), if_neg (by decide)]
    show resolveStep (resolveStep (rootSegsOf cwd inp.rootDir) ['.', '.'])
        ("outside.md".data) = _
    rw [h1, h2]
  have hres : resolveUnderRoot cwd inp.rootDir inp.relativePath =
      Except.error (ToolError.pathTraversal (String.mk
        (joinAbs ((rootSegsOf cwd inp.rootDir).dropLast ++ [("outside.md".data)])))) := by
    simp only [resolveUnderRoot]
    rw [hseg, outside_guard_false (rootSegsOf cwd inp.rootDir) hlast]
    rfl
  unfold generateMarkdownFile
  rw [hres]

/-- Witness for C7 (amended) at a concrete input: under root `/r` the relative
path `../outside.md` resolves to `/outside.md`, outside the root, so the
writer fails with a traversal error and an unchanged (empty) filesystem. -/
theorem generateMarkdownFile_traversal_witness :
    generateMarkdownFile "/" ⟨[], []⟩ ⟨"/r", "../outside.md", none, none, [], [], false⟩ =
      (Except.error (ToolError.pathTraversal "/outside.md"), ⟨[], []⟩) := by
  have h := generateMarkdownFile_traversal "/" ⟨[], []⟩
      ⟨"/r", "../outside.md", none, none, [], [], false⟩ rfl (by decide)
  exact h.trans (by decide)

/-- C7 counterexample: with root directory `/repo/outside.md` — a root whose
final path segment is itself `outside.md` — the relative path `../outside.md`
resolves to the root path itself, so `generateMarkdownFile` raises no
traversal error and writes the file: the claim fails for this root. -/
theorem generateMarkdownFile_traversal_cex :
    (generateMarkdownFile "/" ⟨[], []⟩
        ⟨"/repo/outside.md", "../outside.md", none, none, [], [], false⟩).1 =
        Except.ok ⟨"/repo/outside.md", 1, true, false⟩ ∧
      (generateMarkdownFile "/" ⟨[], []⟩
        ⟨"/repo/outside.md", "../outside.md", none, none, [], [], false⟩).2.files =
        [("/repo/outside.md", "\n")] := by
  decide

theorem ensureDir_contains_self (fs : FS) (d : String) :
    (ensureDir fs d).dirs.contains d = true := by
  unfold ensureDir
  split
  case isTrue hc => exact hc
  case isFalse hc => simp

theorem ensureDir_of_contains {fs : FS} {d : String} (h : fs.dirs.contains d = true) :
    ensureDir fs d = fs := by
  unfold ensureDir
  rw [if_pos h]

/-- C6: when the resolved target file already exists and overwriting was not
requested, `generateMarkdownFile` fails with a `fileExists` error naming the
relative path and leaves the file map unchanged; in particular, after a
successful write of a request with `overwrite = false`, repeating the very
same request fails that way with the filesystem state exactly as the first
call left it. -/
theorem generateMarkdownFile_no_overwrite (cwd : String) (fs : FS)
    (inp : GenerateMarkdownFileInput) (hov : inp.overwrite = false) :
    (∀ full, resolveUnderRoot cwd inp.rootDir inp.relativePath = Except.ok full →
        fs.files.any (fun e => e.1 == full) = true →
        generateMarkdownFile cwd fs inp =
            (Except.error (ToolError.fileExists inp.relativePath),
              ensureDir fs (dirname full)) ∧
          (ensureDir fs (dirname full)).files = fs.files) ∧
      ∀ res fs₁, generateMarkdownFile cwd fs inp = (Except.ok res, fs₁) →
        generateMarkdownFile cwd fs₁ inp =
          (Except.error (ToolError.fileExists inp.relativePath), fs₁) := by
  constructor
  · intro full hres hex
    have hfiles : (ensureDir fs (dirname full)).files = fs.files := by
      unfold ensureDir
      split <;> rfl
    have hexists : fsExistsPath (ensureDir fs (dirname full)) full = true := by
      unfold fsExistsPath
      rw [hfiles, hex, Bool.or_true]
    refine ⟨?_, hfiles⟩
    unfold generateMarkdownFile
    rw [hres]
    simp only [hexists, hov, Bool.not_false, Bool.and_true, if_true]
  · intro res fs₁ hok
    unfold generateMarkdownFile at hok
    cases hres : resolveUnderRoot cwd inp.rootDir inp.relativePath with
    | error e =>
      rw [hres] at hok
      exact absurd hok (by simp)
    | ok full =>
      rw [hres] at hok
      by_cases hex : fsExistsPath (ensureDir fs (dirname full)) full = true
      · rw [hov] at hok
        simp only [hex, Bool.not_false, Bool.and_true, if_true] at hok
        exact absurd hok (by simp)
      · rw [hov] at hok
        simp only [Bool.not_eq_true] at hex
        simp only [hex, Bool.not_false, Bool.and_true, Bool.false_eq_true, if_false,
          Prod.mk.injEq] at hok
        obtain ⟨-, hfs⟩ := hok
        subst hfs
        have hdir : (fsWrite (ensureDir fs (dirname full)) full
            (composeMarkdown inp)).dirs.contains (dirname full) = true := by
          have h1 : (fsWrite (ensureDir fs (dirname full)) full
              (composeMarkdown inp)).dirs = (ensureDir fs (dirname full)).dirs := rfl
          rw [h1]
          exact ensureDir_contains_self fs (dirname full)
        have hens : ensureDir (fsWrite (ensureDir fs (dirname full)) full
            (composeMarkdown inp)) (dirname full) =
            fsWrite (ensureDir fs (dirname full)) full (composeMarkdown inp) :=
          ensureDir_of_contains hdir
        have hex2 : fsExistsPath (fsWrite (ensureDir fs (dirname full)) full
            (composeMarkdown inp)) full = true := by
          unfold fsExistsPath
          have hany : (fsWrite (ensureDir fs (dirname full)) full
              (composeMarkdown inp)).files.any (fun e => e.1 == full) = true := by
            show ((full, composeMarkdown inp) :: _).any (fun e => e.1 == full) = true
            simp
          rw [hany, Bool.or_true]
        unfold generateMarkdownFile
        rw [hres]
        dsimp only
        rw [hens, hex2, hov]
        simp only [Bool.not_false, Bool.and_true, if_true]

/-- Witness for C6 at a concrete input: with `/r/a.md` already present and
`overwrite = false`, writing `a.md` under `/r` fails with the `fileExists`
error and the filesystem is unchanged. -/
theorem generateMarkdownFile_no_overwrite_witness :
    generateMarkdownFile "/" ⟨["/r"], [("/r/a.md", "\n")]⟩
        ⟨"/r", "a.md", none, none, [], [], false⟩ =
      (Except.error (ToolError.fileExists "a.md"), ⟨["/r"], [("/r/a.md", "\n")]⟩) := by
  have h := ((generateMarkdownFile_no_overwrite "/" ⟨["/r"], [("/r/a.md", "\n")]⟩
      ⟨"/r", "a.md", none, none, [], [], false⟩ rfl).1 "/r/a.md" (by decide) (by decide)).1
  exact h.trans (by decide)
